import Mathlib

/-!
A shallow embedding of `src/jupyter_book/toc.py` (the `jupyter-book` global
table-of-contents extension).

Paths are modelled as plain strings joined with `/`.  `pathlib` operations
(`suffix`, `with_suffix("")`, `.name`, `.parent`) are modelled character-wise
on the final path component, following CPython's rule that a suffix is the
part of the final component starting at its last dot, provided that dot is
neither the first nor the last character of the component.  `Path(...)`
normalisation of redundant separators and of `"."`/`""` inputs, and
`resolve()`'s absolutisation, are not modelled; every concrete input used
below is a normal relative path on which these are the identity.

A YAML mapping node of the TOC is modelled by `TocNode`; a key that may be
absent from the mapping is an `Option` field (`pages = none` models a dict
without a `"pages"` key, which Python's `page.get("pages", [])` reads as the
empty list).
-/

namespace JBToc

/-- The path separator used when joining directory entries, as `pathlib`
prints POSIX paths. -/
def sepChar : Char := '/'

/-- The final path component, as a character list: the characters after the
last separator (`Path(p).name`). -/
def lastCompChars (cs : List Char) : List Char :=
  (cs.reverse.takeWhile (fun c => c ≠ sepChar)).reverse

/-- Everything up to and including the last separator (empty when the path is
a bare name). -/
def dirPrefixChars (cs : List Char) : List Char :=
  (cs.reverse.dropWhile (fun c => c ≠ sepChar)).reverse

/-- Split a final path component into `(stem, suffix)` following
`pathlib`: the suffix starts at the last `'.'` whose index is strictly
positive and strictly before the last character; otherwise there is no
suffix. -/
def stemSuffixChars (name : List Char) : List Char × List Char :=
  let j := (name.reverse.takeWhile (fun c => c ≠ '.')).length
  if j < name.length then
    let i := name.length - 1 - j
    if 0 < i ∧ i < name.length - 1 then (name.take i, name.drop i)
    else (name, [])
  else (name, [])

/-- `Path(p).name` -/
def lastComponent (p : String) : String :=
  (lastCompChars p.toList).asString

/-- `Path(p).suffix` -/
def suffixOf (p : String) : String :=
  (stemSuffixChars (lastCompChars p.toList)).2.asString

/-- `Path(p).with_suffix("").name`, the stem of the final component. -/
def stemOf (p : String) : String :=
  (stemSuffixChars (lastCompChars p.toList)).1.asString

/-- `str(Path(p).with_suffix(""))`: the path with the final component's
suffix removed. -/
def withoutSuffix (p : String) : String :=
  (dirPrefixChars p.toList ++ (stemSuffixChars (lastCompChars p.toList)).1).asString

/-- `str(Path(p).parent)` for relative paths: drop the final component, `"."`
when there is none. -/
def parentDir (p : String) : String :=
  let pre := dirPrefixChars p.toList
  if pre.isEmpty then "." else pre.dropLast.asString

/-- `Path(p).parent.name`: the name of the containing directory. -/
def parentDirName (p : String) : String :=
  lastComponent (parentDir p)

/-- `toc.py`'s `_no_suffix`: every call site passes a string (or `None`,
which the callers map over), so only the string branch
`str(Path(path).with_suffix(""))` is modelled. -/
def _no_suffix (p : String) : String := withoutSuffix p

/-- Python's `needle in haystack` on strings: substring containment. -/
def substrB (needle hay : String) : Bool :=
  decide (needle.toList <:+: hay.toList)

/-- `any(iskip in p for iskip in skips)`. -/
def skipMatch (skips : List String) (p : String) : Bool :=
  skips.any (fun sk => substrB sk p)

/-- Modelled from the spec: `SUPPORTED_FILE_SUFFIXES` lives in the missing
`jupyter_book/utils.py`; the spec fixes it as the small allow-list of the
markup and notebook document formats. -/
def SUPPORTED_FILE_SUFFIXES : List String := [".ipynb", ".md"]

/-- Modelled from the spec: title-casing of one word (first letter upper,
rest lower). -/
def titleCaseWord (w : String) : String :=
  match w.toList with
  | [] => ""
  | c :: rest => (c.toUpper :: rest.map Char.toLower).asString

/-- Split a character list at every occurrence of the separator character
(Python's `str.split(sep)` for the one-character separators this module
uses): the accumulator holds the current word reversed. -/
def splitOnSep (d : Char) : List Char → List Char → List (List Char)
  | [], acc => [acc.reverse]
  | c :: rest, acc =>
    if c = d then acc.reverse :: splitOnSep d rest []
    else splitOnSep d rest (c :: acc)

/-- Modelled from the spec: `_filename_to_title` lives in the missing
`jupyter_book/utils.py`; the spec says title derivation splits the name on
the configurable split character and applies title-casing per resulting
word.  An empty split string leaves the name as one word. -/
def _filename_to_title (name : String) (splitChar : String) : String :=
  let words :=
    match splitChar.toList with
    | [] => [name]
    | d :: _ => (splitOnSep d name.toList []).map List.asString
  String.intercalate " " (words.map titleCaseWord)

/-- A TOC tree node: the YAML mapping `{file, name, title, numbered, pages}`.
`none` models an absent key.  `numbered` is read only for truthiness, so it
is modelled as `Bool`. -/
inductive TocNode : Type where
  | mk : Option String → Option String → Option String → Bool →
         Option (List TocNode) → TocNode

/-- The `"file"` value of a node. -/
def TocNode.file : TocNode → Option String
  | .mk f _ _ _ _ => f

/-- The `"name"` value of a node. -/
def TocNode.name : TocNode → Option String
  | .mk _ n _ _ _ => n

/-- The `"title"` value of a node. -/
def TocNode.title : TocNode → Option String
  | .mk _ _ t _ _ => t

/-- The truthiness of the `"numbered"` value of a node. -/
def TocNode.numbered : TocNode → Bool
  | .mk _ _ _ b _ => b

/-- The `"pages"` value of a node (`none` when the key is absent). -/
def TocNode.pages : TocNode → Option (List TocNode)
  | .mk _ _ _ _ p => p

/-- Replace the `"pages"` value of a node (`parent["pages"] = ...` /
`parent.pop("pages")`). -/
def TocNode.withPages : TocNode → Option (List TocNode) → TocNode
  | .mk f n t b _, p => .mk f n t b p

/-- `find_name`'s argument is "a dict with nested lists and dicts": either a
single mapping or a list of mappings. -/
inductive TocInput : Type where
  | node : TocNode → TocInput
  | list : List TocNode → TocInput

/-- `toc.py` `find_name`, specialised to a sibling list (after the
`isinstance(pages, dict)` wrapping): check each node, then its `pages`
children, then the next sibling; the first node whose suffix-stripped
`file` equals `name` is returned. -/
def find_name : List TocNode → String → Option TocNode
  | [], _ => none
  | TocNode.mk f nm tt nb none :: rest, name =>
    if f.map _no_suffix = some name then some (TocNode.mk f nm tt nb none)
    else find_name rest name
  | TocNode.mk f nm tt nb (some ps) :: rest, name =>
    if f.map _no_suffix = some name then some (TocNode.mk f nm tt nb (some ps))
    else
      match find_name ps name with
      | some q => some q
      | none => find_name rest name

/-- `toc.py` `find_name` on either input shape (`if isinstance(pages, dict):
pages = [pages]`). -/
def find_name' : TocInput → String → Option TocNode
  | .node n, name => find_name [n] name
  | .list l, name => find_name l name

/-- The depth-first pre-order listing of the nodes of a sibling list: a node,
then its `pages` children, then its following siblings. -/
def preorder : List TocNode → List TocNode
  | [] => []
  | TocNode.mk f nm tt nb none :: rest =>
    TocNode.mk f nm tt nb none :: preorder rest
  | TocNode.mk f nm tt nb (some ps) :: rest =>
    TocNode.mk f nm tt nb (some ps) :: (preorder ps ++ preorder rest)

/-- The pre-order listing of either input shape. -/
def preorder' : TocInput → List TocNode
  | .node n => preorder [n]
  | .list l => preorder l

/-- A directory entry as produced by `path.iterdir()`: a file name or a
subdirectory name with the subdirectory's own entries, in the filesystem's
listing order. -/
inductive Entry : Type where
  | file : String → Entry
  | dir : String → List Entry → Entry

/-- The entry's own name (final path component). -/
def Entry.entryName : Entry → String
  | .file n => n
  | .dir n _ => n

/-- `ii.is_dir()`. -/
def Entry.isDir : Entry → Bool
  | .file _ => false
  | .dir _ _ => true

/-- Line 147-149 of `toc.py`: `[ii for ii in path.iterdir() if ii.suffix in
SUPPORTED_FILE_SUFFIXES]`, as full path strings.  Note the check is on the
suffix only, so a directory whose name carries a content suffix is listed
too, exactly as `iterdir` would. -/
def contentPaths (path : String) (entries : List Entry) : List String :=
  (entries.filter
      (fun e => SUPPORTED_FILE_SUFFIXES.contains (suffixOf e.entryName))).map
    (fun e => path ++ "/" ++ e.entryName)

/-- The test of line 159: a content file whose stem
(`ifile.with_suffix("").name`) is exactly `"index"`. -/
def isIndexFile (f : String) : Bool := stemOf f = "index"

/-- Lines 157-160 of `toc.py`: iterating `enumerate(content_files)` while
`pop`ping matches.  CPython's list iterator keeps a position counter, so
after a `pop(ii)` the element that slides into slot `ii` is never examined;
`first_content` ends as the last examined file whose stem is `"index"`, each
such file being removed from the list. -/
def popIndexLoop (ii : Nat) (files : List String) (found : Option String) :
    Option String × List String :=
  if h : ii < files.length then
    let f := files.get ⟨ii, h⟩
    if isIndexFile f then
      popIndexLoop (ii + 1) (files.eraseIdx ii) (some f)
    else
      popIndexLoop (ii + 1) files found
  else (found, files)
termination_by files.length - ii
decreasing_by
  · simp [List.length_eraseIdx, h]; omega
  · omega

/-- `toc.py` `_content_path_to_yaml`: note `path` is suffix-stripped once on
line 127 and then the `file` value strips it a second time on line 134. -/
def _content_path_to_yaml (p : String) (splitChar : String) : TocNode :=
  let p1 := withoutSuffix p
  let title :=
    if lastComponent p1 = "index" then
      _filename_to_title (parentDirName p1) splitChar
    else
      _filename_to_title (lastComponent p1) splitChar
  TocNode.mk (some (withoutSuffix p1)) none (some title) false none

/-- The marker appended to `skip_text` on every call (line 142). -/
def checkpointMarker : String := ".ipynb_checkpoints"

/-- Lines 157-162 of `toc.py`: run the `enumerate`/`pop` loop over the
content files, then `if not first_content: first_content =
content_files.pop(0)`.  Returns the selected first content file and the
remaining list (the `headD ""` default is unreachable: the loop leaves the
list untouched when it found nothing, and the caller only reaches this
with a non-empty list). -/
def pickFirstContent (contentFiles : List String) : String × List String :=
  let pr := popIndexLoop 0 contentFiles none
  match pr.1 with
  | some f => (f, pr.2)
  | none => (pr.2.headD "", pr.2.tail)

/-- Lines 166-170 of `toc.py`: the remaining content files that carry no
skip marker become leaf children — note `_content_path_to_yaml` is called
WITHOUT the caller's split char, so these titles always use the default
`"_"`. -/
def fileChildren (skipText : List String) (rest : List String) :
    List TocNode :=
  (rest.filter (fun f => !skipMatch skipText f)).map
    (fun f => _content_path_to_yaml f "_")

mutual

/-- `toc.py` `_find_content_structure` on a directory at `path` whose
listing is `entries`, with the caller's (already non-`None`) `skip_text`
list.  The Python function mutates `skip_text` in place; that mutation is
modelled by returning the final list alongside the result. -/
def _find_content_structure (path : String) (entries : List Entry)
    (splitChar : String) (skipText0 : List String) :
    Option TocNode × List String :=
  let skipText := skipText0 ++ [checkpointMarker]
  let contentFiles := contentPaths path entries
  if contentFiles.isEmpty then (none, skipText)
  else
    let fc := pickFirstContent contentFiles
    let parent := _content_path_to_yaml fc.1 splitChar
    let fileKids := fileChildren skipText fc.2
    let dk := processFolders path entries splitChar skipText
    let pages := fileKids ++ dk.1
    (some (parent.withPages (if pages.isEmpty then none else some pages)),
     dk.2)

/-- Lines 173-181 of `toc.py`: the loop over subdirectories; non-directory
entries are just passed over (the Python code pre-filters them with
`ii.is_dir()`). -/
def processFolders (path : String) (folders : List Entry)
    (splitChar : String) (skipText : List String) :
    List TocNode × List String :=
  match folders with
  | [] => ([], skipText)
  | Entry.file _ :: rest => processFolders path rest splitChar skipText
  | Entry.dir dn sub :: rest =>
    let fpath := path ++ "/" ++ dn
    if skipMatch skipText fpath then
      processFolders path rest splitChar skipText
    else
      match _find_content_structure fpath sub splitChar skipText with
      | (some node, sk1) =>
        let pr := processFolders path rest splitChar sk1
        (node :: pr.1, pr.2)
      | (none, sk1) => processFolders path rest splitChar sk1

end

mutual

/-- Modelled from the spec: the persisted tree format produced by
`yaml.safe_dump(structure, default_flow_style=False, sort_keys=False)` — a
key-ordered, human-editable block serialization of the node shape that
generation produces (`file`, `title`, and `pages` when present). -/
def yamlDump (indent : String) : TocNode → String
  | TocNode.mk f _ t _ none =>
    indent ++ "file: " ++ f.getD "null" ++ "\n" ++
    indent ++ "title: " ++ t.getD "null" ++ "\n"
  | TocNode.mk f _ t _ (some ps) =>
    indent ++ "file: " ++ f.getD "null" ++ "\n" ++
    indent ++ "title: " ++ t.getD "null" ++ "\n" ++
    indent ++ "pages:\n" ++ yamlDumpList (indent ++ "  ") ps

/-- Serialize a `pages` list, one block item per child. -/
def yamlDumpList (indent : String) : List TocNode → String
  | [] => ""
  | n :: rest => indent ++ "-\n" ++ yamlDump (indent ++ " ") n ++
                 yamlDumpList indent rest

end

/-- `toc.py` `build_toc`: run the recursive walk and serialize; a `None`
structure (no content files at all) raises `ValueError`.  The second
component is the caller's `skip_text` list after the call (the in-place
mutation `build_toc` leaks when the caller passed a list). -/
def build_toc (path : String) (entries : List Entry)
    (filename_split_char : String) (skip_text : Option (List String)) :
    Except String String × List String :=
  let r := _find_content_structure path entries filename_split_char
    (skip_text.getD [])
  match r with
  | (none, sk) =>
    (Except.error ("No content files were found in " ++ path ++ "."), sk)
  | (some st, sk) => (Except.ok (yamlDump "" st), sk)

/-- Lines 113-118 of `toc.py` `update_indexname`: normalize the loaded TOC's
root shape.  A loaded YAML list is `TocInput.list`, a mapping is
`TocInput.node`; an empty list would raise `IndexError` at `toc[0]`,
modelled as `none`. -/
def normalizeToc : TocInput → Option TocNode
  | .node n => some n
  | .list [] => none
  | .list (n :: rest) =>
    some (if rest.isEmpty then n else n.withPages (some rest))

/-- Line 122 of `toc.py`: `app.config["master_doc"] = _no_suffix(toc["file"])`
(`none` models the `KeyError` when the root has no `file`). -/
def masterDocOf (root : TocNode) : Option String :=
  root.file.map _no_suffix

/-- A notebook cell (`nbformat`'s cell types that matter here). -/
inductive Cell : Type where
  | markdown : String → Cell
  | code : String → Cell
deriving DecidableEq

/-- Modelled from the spec: the document source buffer `source[0]`.  For a
markup document it is the raw text; for a notebook document the spec says
the buffer is parsed into a structured notebook (a cell list), a markdown
cell is appended, and the notebook is re-serialized — `nbformat` is an
external library, so the parsed form is modelled directly and
parse/serialize are the identity on it. -/
inductive SourceBuf : Type where
  | raw : String → SourceBuf
  | notebook : List Cell → SourceBuf
deriving DecidableEq

/-- `os.path.relpath(p, start)` for the relative, `..`-free paths this
module produces: drop the common component prefix, climb with `..` for
every remaining component of `start`, then descend into the rest of `p`. -/
def relpath (p start : String) : String :=
  let clean := fun (s : String) =>
    ((splitOnSep sepChar s.toList []).map List.asString).filter
      (fun c => c ≠ "" && c ≠ ".")
  let pc := clean p
  let sc := clean start
  let k := (List.zip pc sc).takeWhile (fun ab => ab.1 = ab.2) |>.length
  let parts := List.replicate (sc.length - k) ".." ++ pc.drop k
  if parts.isEmpty then "." else String.intercalate "/" parts

/-- Lines 58-67 of `toc.py`, one child: rewrite the child's path relative to
the parent document's containing directory and label it when `name` is
truthy (Python's `if name:` is false for `None` and for `""`). -/
def sectionEntry (parentFolder : String) (fileSec : String)
    (nm : Option String) : String :=
  let p := relpath fileSec parentFolder
  match nm with
  | some s => if s = "" then p else s ++ " <" ++ p ++ ">"
  | none => p

/-- The per-child loop of `add_toctree`: `os.path.relpath(None, ...)` raises
`TypeError` when a child has no `file`. -/
def buildSections (parentFile : String) (kids : List TocNode) :
    Except String (List String) :=
  kids.mapM (fun k =>
    match k.file with
    | none => Except.error "TypeError: argument should be a str or an os.PathLike object, not NoneType"
    | some f => Except.ok (sectionEntry (parentDir parentFile) f k.name))

/-- Lines 78-88 of `toc.py` after `dedent`, with `{options}` and
`{sections}` substituted by `format`. -/
def toctreeTemplate (options sections : String) : String :=
  "\n```\x7btoctree\x7d\n:hidden:\n:titlesonly:\n" ++ options ++ "\n\n" ++
    sections ++ "\n```\n"

/-- Lines 58-91 of `toc.py`: the markdown directive for a found page with a
non-empty `pages` list (`page["file"]` raises `KeyError` when absent). -/
def pageToctree (page : TocNode) : Except String String :=
  match page.file with
  | none => Except.error "KeyError: \x27file\x27"
  | some pfile => do
    let sections ← buildSections pfile (page.pages.getD [])
    let options := if page.numbered then ":numbered:" else ""
    pure (toctreeTemplate options (String.intercalate "\n" sections))

/-- The `FileNotFoundError` message of lines 49-51. -/
def tocMissingMsg (path : String) : String :=
  "The following path in your table of contents couldn\x27t be found:\n\n" ++
    path ++ ".\n\nDouble check your `_toc.yml` file to make sure the paths are correct."

/-- The `ValueError` message of line 103. -/
def unsupportedMsg : String := "Only markdown and ipynb files are supported."

/-- `toc.py` `add_toctree`.  The host supplies `globaltoc_path` (falsy
string opts out), the loaded `globaltoc`, the document's path
(`app.env.doc2path(docname, base=None)`) and the source buffer; a raised
exception is an `Except.error` and the unchanged or mutated buffer is the
`Except.ok` value.  The two `source mismatch` branches are unreachable for
real documents, whose buffer shape matches their suffix. -/
def add_toctree (globaltocPath : String) (toc : TocInput) (path : String)
    (source : SourceBuf) : Except String SourceBuf :=
  if globaltocPath = "" then Except.ok source
  else
    match find_name' toc (_no_suffix path) with
    | none => Except.error (tocMissingMsg path)
    | some page =>
      let sections := (page.pages.getD []).map (fun ii => (ii.file, ii.name))
      if sections.isEmpty then Except.ok source
      else do
        let toctree ← pageToctree page
        let suff := suffixOf path
        if suff = ".md" then
          match source with
          | .raw s => pure (SourceBuf.raw (s ++ toctree ++ "\n"))
          | .notebook _ => Except.error "source mismatch: markdown file with notebook buffer"
        else if suff = ".ipynb" then
          match source with
          | .notebook cells =>
            pure (SourceBuf.notebook (cells ++ [Cell.markdown toctree]))
          | .raw _ => Except.error "source mismatch: notebook file with raw buffer"
        else Except.error unsupportedMsg

/-! ### Claim-side (specification) functions

The definitions below restate, independently of the threaded `skip_text`
state and of the `enumerate`/`pop` loop, what the tree built by
`_find_content_structure` contains.  The theorems relate them to the
source-translated definitions above. -/

/-- The `file` value a content file ends up with in the tree:
`_content_path_to_yaml` strips the suffix twice (lines 127 and 134). -/
def fileKey (p : String) : String := withoutSuffix (withoutSuffix p)

/-- The parent-selection rule as the spec states it: the first
`index`-stemmed content file if any (removed from the list), else the first
listed file. -/
def selectParent : List String → Option (String × List String)
  | [] => none
  | f0 :: rest =>
    match (f0 :: rest).find? isIndexFile with
    | some ixf => some (ixf, (f0 :: rest).eraseP isIndexFile)
    | none => some (f0, rest)

/-- A structurally recursive account of the `enumerate`/`pop` loop of lines
157-160: scan left to right; a match is removed and remembered, and the
element right after a match is never examined. -/
def scanPop : List String → Option String → Option String × List String
  | [], acc => (acc, [])
  | b :: r, acc =>
    if isIndexFile b then
      match r with
      | [] => (some b, [])
      | c :: r' =>
        let pr := scanPop r' (some b)
        (pr.1, c :: pr.2)
    else
      let pr := scanPop r acc
      (pr.1, b :: pr.2)

mutual

/-- The full paths of the content files a directory contributes to the
tree, in the order generation emits them: the selected parent (even when
its path carries a skip marker), then the remaining non-skip-marked files,
then recursively each non-skip-marked subdirectory's contribution.  `S` is
the effective skip set. -/
def eligibleFiles (S : List String) (path : String) (entries : List Entry) :
    List String :=
  match selectParent (contentPaths path entries) with
  | none => []
  | some (par, rest) =>
    par :: (rest.filter (fun f => !skipMatch S f) ++ eligibleDirs S path entries)

/-- The subdirectory part of `eligibleFiles`. -/
def eligibleDirs (S : List String) (path : String) : List Entry → List String
  | [] => []
  | Entry.file _ :: rest => eligibleDirs S path rest
  | Entry.dir dn sub :: rest =>
    if skipMatch S (path ++ "/" ++ dn) then eligibleDirs S path rest
    else eligibleFiles S (path ++ "/" ++ dn) sub ++ eligibleDirs S path rest

end

mutual

/-- How many directories a `_find_content_structure` run visits (the root
plus, recursively, every non-skip-marked subdirectory of a visited
directory that has content files): each visit appends one checkpoint
marker to the caller's `skip_text` list. -/
def visitCount (S : List String) (path : String) (entries : List Entry) :
    Nat :=
  1 + (if (contentPaths path entries).isEmpty then 0
       else visitCountDirs S path entries)

/-- The subdirectory part of `visitCount`. -/
def visitCountDirs (S : List String) (path : String) : List Entry → Nat
  | [] => 0
  | Entry.file _ :: rest => visitCountDirs S path rest
  | Entry.dir dn sub :: rest =>
    if skipMatch S (path ++ "/" ++ dn) then visitCountDirs S path rest
    else visitCount S (path ++ "/" ++ dn) sub + visitCountDirs S path rest

end

mutual

/-- Every directory of the filesystem tree contains at most one
`index`-stemmed content file (true of any real filesystem up to suffix
variants; rules out the `pop`-while-iterating anomalies of lines 158-160). -/
def oneIndexAll (path : String) (entries : List Entry) : Bool :=
  ((contentPaths path entries).countP isIndexFile ≤ 1 : Bool) &&
    oneIndexAllDirs path entries

/-- The subdirectory part of `oneIndexAll`. -/
def oneIndexAllDirs (path : String) : List Entry → Bool
  | [] => true
  | Entry.file _ :: rest => oneIndexAllDirs path rest
  | Entry.dir dn sub :: rest =>
    oneIndexAll (path ++ "/" ++ dn) sub && oneIndexAllDirs path rest

end

mutual

/-- The `file` values of a tree, in depth-first pre-order. -/
def treeFiles : TocNode → List String
  | TocNode.mk f _ _ _ none => f.toList
  | TocNode.mk f _ _ _ (some ps) => f.toList ++ treeFilesList ps

/-- `treeFiles` over a sibling list. -/
def treeFilesList : List TocNode → List String
  | [] => []
  | n :: rest => treeFiles n ++ treeFilesList rest

end

/-- `treeFiles` of an optional tree. -/
def treeFilesOpt : Option TocNode → List String
  | none => []
  | some n => treeFiles n

mutual

/-- The data-model invariant on `pages`: the key is either absent or holds
a non-empty list, recursively. -/
def pagesInvariant : TocNode → Bool
  | TocNode.mk _ _ _ _ none => true
  | TocNode.mk _ _ _ _ (some ps) => !ps.isEmpty && pagesInvariantList ps

/-- `pagesInvariant` over a sibling list. -/
def pagesInvariantList : List TocNode → Bool
  | [] => true
  | n :: rest => pagesInvariant n && pagesInvariantList rest

end

/-- `pagesInvariant` of an optional tree. -/
def pagesInvariantOpt : Option TocNode → Bool
  | none => true
  | some n => pagesInvariant n

/-- `pagesInvariant` over either loader input shape. -/
def pagesInvariantInput : TocInput → Bool
  | .node n => pagesInvariant n
  | .list l => pagesInvariantList l

/-- The resolver outcome "found, with zero children" (`page.get("pages",
[])` empty) as a decidable test on `find_name`'s result. -/
def foundEmptyPages : Option TocNode → Bool
  | some pg => (pg.pages.getD []).isEmpty
  | none => false

/-- The match test of `find_name` line 27: the node's suffix-stripped
`file` equals the searched identifier (false when the node has no
`file`). -/
def matchesKey (x : String) (n : TocNode) : Bool :=
  decide (n.file.map _no_suffix = some x)

/-! ### Theorems -/

theorem find_name_eq_find? (l : List TocNode) (x : String) :
    find_name l x = (preorder l).find? (matchesKey x) := by
  induction l, x using find_name.induct with
  | case1 x => rw [find_name, preorder]; rfl
  | case2 f nm tt nb rest name h =>
    rw [find_name, preorder, if_pos h, List.find?_cons_of_pos]
    exact decide_eq_true (by simpa [TocNode.file] using h)
  | case3 f nm tt nb rest name h ih =>
    rw [find_name, preorder, if_neg h, List.find?_cons_of_neg, ih]
    simp [matchesKey, TocNode.file, h]
  | case4 f nm tt nb ps rest name h =>
    rw [find_name, preorder, if_pos h, List.find?_cons_of_pos]
    exact decide_eq_true (by simpa [TocNode.file] using h)
  | case5 f nm tt nb ps rest name h q hq ihp =>
    rw [find_name, preorder, if_neg h, List.find?_cons_of_neg,
      List.find?_append, ← ihp, hq]
    · rfl
    · simp [matchesKey, TocNode.file, h]
  | case6 f nm tt nb ps rest name h hnone ihp ihr =>
    rw [find_name, preorder, if_neg h, List.find?_cons_of_neg,
      List.find?_append, ← ihp, hnone, ihr]
    · rfl
    · simp [matchesKey, TocNode.file, h]

/-- C1: on either input shape (a single node or a sibling list), `find_name`
returns the first node, in depth-first pre-order (node, then its `pages`
children, then the next sibling), whose suffix-stripped `file` equals the
identifier, and returns absent exactly when no node anywhere in the tree
matches. -/
theorem claim_C1 (t : TocInput) (x : String) :
    find_name' t x = (preorder' t).find? (matchesKey x) ∧
      (find_name' t x = none ↔
        ∀ n ∈ preorder' t, ¬ n.file.map _no_suffix = some x) := by
  have h1 : find_name' t x = (preorder' t).find? (matchesKey x) := by
    cases t with
    | node n => exact find_name_eq_find? [n] x
    | list l => exact find_name_eq_find? l x
  refine ⟨h1, ?_⟩
  rw [h1, List.find?_eq_none]
  simp [matchesKey]

theorem scanPop_nil (acc : Option String) : scanPop [] acc = (acc, []) := by
  rw [scanPop.eq_def]

theorem scanPop_cons_neg (b : String) (r : List String) (acc : Option String)
    (h : ¬ isIndexFile b = true) :
    scanPop (b :: r) acc = ((scanPop r acc).1, b :: (scanPop r acc).2) := by
  rw [scanPop.eq_def]
  simp [h]

theorem scanPop_cons_pos_nil (b : String) (acc : Option String)
    (h : isIndexFile b = true) : scanPop [b] acc = (some b, []) := by
  rw [scanPop.eq_def]
  simp [h]

theorem scanPop_cons_pos_cons (b c : String) (r : List String)
    (acc : Option String) (h : isIndexFile b = true) :
    scanPop (b :: c :: r) acc =
      ((scanPop r (some b)).1, c :: (scanPop r (some b)).2) := by
  rw [scanPop.eq_def]
  simp [h]

theorem eraseIdx_append_len (A : List String) (b : String) (r : List String) :
    (A ++ b :: r).eraseIdx A.length = A ++ r := by
  induction A with
  | nil => rfl
  | cons a t ih => simpa [List.eraseIdx] using ih

theorem getElem_append_len (A : List String) (b : String) (r : List String)
    (h : A.length < (A ++ b :: r).length) : (A ++ b :: r)[A.length] = b := by
  rw [List.getElem_append_right (Nat.le_refl A.length)]
  simp

/-- The `enumerate`/`pop` loop, started at position `A.length` over
`A ++ B`, leaves `A` untouched and scans `B` as `scanPop` does. -/
theorem popIndexLoop_eq_scanPop (B : List String) (acc : Option String) :
    ∀ A : List String,
      popIndexLoop A.length (A ++ B) acc =
        ((scanPop B acc).1, A ++ (scanPop B acc).2) := by
  induction B, acc using scanPop.induct with
  | case1 acc =>
    intro A
    rw [popIndexLoop, dif_neg (by simp), scanPop_nil]
  | case2 b acc h =>
    intro A
    rw [popIndexLoop, dif_pos (by simp), scanPop_cons_pos_nil b acc h]
    simp only [List.get_eq_getElem, getElem_append_len, h, if_true,
      eraseIdx_append_len]
    rw [popIndexLoop, dif_neg (by simp)]
  | case3 b acc h f0 rest ih =>
    intro A
    rw [popIndexLoop, dif_pos (by simp), scanPop_cons_pos_cons b f0 rest acc h]
    simp only [List.get_eq_getElem, getElem_append_len, h, if_true,
      eraseIdx_append_len]
    have hlen : A.length + 1 = (A ++ [f0]).length := by simp
    have happ : A ++ f0 :: rest = (A ++ [f0]) ++ rest := by simp
    rw [happ, hlen, ih (A ++ [f0])]
    simp
  | case4 b r acc h ih =>
    intro A
    rw [popIndexLoop, dif_pos (by simp), scanPop_cons_neg b r acc h]
    simp only [List.get_eq_getElem, getElem_append_len, h, if_false,
      Bool.false_eq_true]
    have hlen : A.length + 1 = (A ++ [b]).length := by simp
    have happ : A ++ b :: r = (A ++ [b]) ++ r := by simp
    rw [happ, hlen, ih (A ++ [b])]
    simp

theorem popIndexLoop_zero (B : List String) (acc : Option String) :
    popIndexLoop 0 B acc = scanPop B acc := by
  simpa using popIndexLoop_eq_scanPop B acc []

theorem scanPop_no_idx (B : List String) (acc : Option String)
    (h : ∀ b ∈ B, ¬ isIndexFile b = true) : scanPop B acc = (acc, B) := by
  induction B with
  | nil => exact scanPop_nil acc
  | cons b r ih =>
    rw [scanPop_cons_neg b r acc (h b (by simp)),
      ih (fun x hx => h x (by simp [hx]))]

/-- With at most one `index`-stemmed file in the list, the
`enumerate`/`pop` loop finds exactly the first such file and removes it
(no element after it matches, so the skipped slot does not matter). -/
theorem scanPop_spec (files : List String)
    (h : files.countP isIndexFile ≤ 1) :
    scanPop files none =
      (files.find? isIndexFile,
       match files.find? isIndexFile with
       | some _ => files.eraseP isIndexFile
       | none => files) := by
  induction files with
  | nil => simp [scanPop_nil]
  | cons b t ih =>
    by_cases hb : isIndexFile b = true
    · have ht : t.countP isIndexFile = 0 := by
        rw [List.countP_cons_of_pos _ _ hb] at h
        omega
      have hall : ∀ x ∈ t, ¬ isIndexFile x = true := by
        intro x hx
        exact List.countP_eq_zero.mp ht x hx
      rw [List.find?_cons_of_pos _ hb, List.eraseP_cons_of_pos hb]
      cases t with
      | nil => exact scanPop_cons_pos_nil b none hb
      | cons c r' =>
        rw [scanPop_cons_pos_cons b c r' none hb,
          scanPop_no_idx r' (some b) (fun x hx => hall x (by simp [hx]))]
    · rw [scanPop_cons_neg b t none hb, List.find?_cons_of_neg _ hb,
        List.eraseP_cons_of_neg hb,
        ih (le_trans (Nat.le_of_eq (List.countP_cons_of_neg _ _ hb).symm) h)]
      cases hf : t.find? isIndexFile <;> simp [hf]


theorem skipMatch_append (l1 l2 : List String) (p : String) :
    skipMatch (l1 ++ l2) p = (skipMatch l1 p || skipMatch l2 p) := by
  simp [skipMatch, List.any_append]

theorem skipMatch_append_mem (sk : List String) (m : String) (hm : m ∈ sk)
    (p : String) : skipMatch (sk ++ [m]) p = skipMatch sk p := by
  rw [skipMatch_append]
  cases hsk : skipMatch sk p with
  | true => simp
  | false =>
    have hall := List.any_eq_false.mp hsk
    have hm' : substrB m p = false := eq_false_of_ne_true (hall m hm)
    simp [skipMatch, hm']

theorem skipMatch_append_replicate (sk : List String) (m : String)
    (hm : m ∈ sk) (k : Nat) (p : String) :
    skipMatch (sk ++ List.replicate k m) p = skipMatch sk p := by
  rw [skipMatch_append]
  cases hsk : skipMatch sk p with
  | true => simp
  | false =>
    have hall := List.any_eq_false.mp hsk
    have hm' : substrB m p = false := eq_false_of_ne_true (hall m hm)
    have h2 : skipMatch (List.replicate k m) p = false := by
      apply List.any_eq_false.mpr
      intro x hx
      rw [List.eq_of_mem_replicate hx]
      simp [hm']
    simp [h2]

theorem fcs_empty (path : String) (es : List Entry) (sc : String)
    (sk : List String) (h : (contentPaths path es).isEmpty = true) :
    _find_content_structure path es sc sk = (none, sk ++ [checkpointMarker]) := by
  rw [_find_content_structure]
  simp [h]

theorem fcs_nonempty (path : String) (es : List Entry) (sc : String)
    (sk : List String) (h : ¬ (contentPaths path es).isEmpty = true) :
    _find_content_structure path es sc sk =
      (some ((_content_path_to_yaml (pickFirstContent (contentPaths path es)).1 sc).withPages
        (if (fileChildren (sk ++ [checkpointMarker]) (pickFirstContent (contentPaths path es)).2 ++
              (processFolders path es sc (sk ++ [checkpointMarker])).1).isEmpty
         then none
         else some (fileChildren (sk ++ [checkpointMarker]) (pickFirstContent (contentPaths path es)).2 ++
              (processFolders path es sc (sk ++ [checkpointMarker])).1))),
       (processFolders path es sc (sk ++ [checkpointMarker])).2) := by
  rw [_find_content_structure]
  simp [h]

theorem pf_nil (path sc : String) (sk : List String) :
    processFolders path [] sc sk = ([], sk) := by
  rw [processFolders]

theorem pf_file (path : String) (a : String) (rest : List Entry) (sc : String)
    (sk : List String) :
    processFolders path (Entry.file a :: rest) sc sk =
      processFolders path rest sc sk := by
  rw [processFolders]

theorem pf_dir_skip (path dn : String) (sub rest : List Entry) (sc : String)
    (sk : List String) (h : skipMatch sk (path ++ "/" ++ dn) = true) :
    processFolders path (Entry.dir dn sub :: rest) sc sk =
      processFolders path rest sc sk := by
  rw [processFolders]
  simp [h]

theorem pf_dir_some (path dn : String) (sub rest : List Entry) (sc : String)
    (sk sk1 : List String) (node : TocNode)
    (h : ¬ skipMatch sk (path ++ "/" ++ dn) = true)
    (heq : _find_content_structure (path ++ "/" ++ dn) sub sc sk = (some node, sk1)) :
    processFolders path (Entry.dir dn sub :: rest) sc sk =
      (node :: (processFolders path rest sc sk1).1,
       (processFolders path rest sc sk1).2) := by
  rw [processFolders]
  simp [h, heq]

theorem pf_dir_none (path dn : String) (sub rest : List Entry) (sc : String)
    (sk sk1 : List String)
    (h : ¬ skipMatch sk (path ++ "/" ++ dn) = true)
    (heq : _find_content_structure (path ++ "/" ++ dn) sub sc sk = (none, sk1)) :
    processFolders path (Entry.dir dn sub :: rest) sc sk =
      processFolders path rest sc sk1 := by
  rw [processFolders]
  simp [h, heq]



theorem visitCount_eq (S : List String) (path : String) (es : List Entry) :
    visitCount S path es =
      1 + (if (contentPaths path es).isEmpty then 0 else visitCountDirs S path es) := by
  rw [visitCount]

theorem walk_both :
    (∀ (path : String) (es : List Entry) (sc : String) (sk : List String),
       ∀ S : List String,
         (∀ p, skipMatch (sk ++ [checkpointMarker]) p = skipMatch S p) →
         (_find_content_structure path es sc sk).2 =
           sk ++ List.replicate (visitCount S path es) checkpointMarker) ∧
    (∀ (path : String) (fs : List Entry) (sc : String) (sk : List String),
       checkpointMarker ∈ sk →
       ∀ S : List String,
         (∀ p, skipMatch sk p = skipMatch S p) →
         (processFolders path fs sc sk).2 =
           sk ++ List.replicate (visitCountDirs S path fs) checkpointMarker) := by
  refine _find_content_structure.mutual_induct
    (fun path es sc sk =>
      ∀ S : List String,
        (∀ p, skipMatch (sk ++ [checkpointMarker]) p = skipMatch S p) →
        (_find_content_structure path es sc sk).2 =
          sk ++ List.replicate (visitCount S path es) checkpointMarker)
    (fun path fs sc sk =>
      checkpointMarker ∈ sk →
      ∀ S : List String,
        (∀ p, skipMatch sk p = skipMatch S p) →
        (processFolders path fs sc sk).2 =
          sk ++ List.replicate (visitCountDirs S path fs) checkpointMarker)
    ?_ ?_ ?_ ?_ ?_ ?_ ?_
  · -- content files empty
    intro path es sc sk0 cf hempty S hpred
    rw [fcs_empty path es sc sk0 hempty, visitCount_eq, if_pos hempty]
    simp
  · -- content files non-empty
    intro path es sc sk0 skT cf hne ih S hpred
    rw [fcs_nonempty path es sc sk0 hne]
    rw [ih (List.mem_append_right sk0 (List.mem_singleton_self _)) S hpred, visitCount_eq, if_neg hne]
    rw [List.append_assoc]
    congr 1
    rw [Nat.add_comm 1]
    simp [List.replicate_succ]
  · -- folders: nil
    intro path sc sk hm S hpred
    rw [pf_nil, visitCountDirs]
    simp
  · -- folders: file entry
    intro path sc sk a rest ih hm S hpred
    rw [pf_file, visitCountDirs]
    exact ih hm S hpred
  · -- folders: skip-matched dir
    intro path sc sk dn sub rest fpath hskip ih hm S hpred
    rw [pf_dir_skip path dn sub rest sc sk hskip, visitCountDirs,
      if_pos (by rw [← hpred]; exact hskip)]
    exact ih hm S hpred
  · -- folders: dir yielding a node
    intro path sc sk dn sub rest fpath hskip node sk1 heq ihf ihp hm S hpred
    rw [pf_dir_some path dn sub rest sc sk sk1 node hskip heq]
    have hsk1 : sk1 = sk ++ List.replicate (visitCount S (path ++ "/" ++ dn) sub) checkpointMarker := by
      have := ihf S (fun p => by rw [skipMatch_append_mem _ _ hm, hpred])
      rw [heq] at this
      exact this
    have hm1 : checkpointMarker ∈ sk1 := by
      rw [hsk1]; exact List.mem_append_left _ hm
    have hpred1 : ∀ p, skipMatch sk1 p = skipMatch S p := fun p => by
      rw [hsk1, skipMatch_append_replicate sk checkpointMarker hm, hpred]
    rw [ihp hm1 S hpred1, hsk1, visitCountDirs,
      if_neg (by rw [← hpred]; exact hskip), List.append_assoc, ← List.replicate_add]
  · -- folders: dir yielding nothing
    intro path sc sk dn sub rest fpath hskip sk1 heq ihf ihp hm S hpred
    rw [pf_dir_none path dn sub rest sc sk sk1 hskip heq]
    have hsk1 : sk1 = sk ++ List.replicate (visitCount S (path ++ "/" ++ dn) sub) checkpointMarker := by
      have := ihf S (fun p => by rw [skipMatch_append_mem _ _ hm, hpred])
      rw [heq] at this
      exact this
    have hm1 : checkpointMarker ∈ sk1 := by
      rw [hsk1]; exact List.mem_append_left _ hm
    have hpred1 : ∀ p, skipMatch sk1 p = skipMatch S p := fun p => by
      rw [hsk1, skipMatch_append_replicate sk checkpointMarker hm, hpred]
    rw [ihp hm1 S hpred1, hsk1, visitCountDirs,
      if_neg (by rw [← hpred]; exact hskip), List.append_assoc, ← List.replicate_add]

theorem buildToc_snd (path : String) (es : List Entry) (sc : String)
    (sko : Option (List String)) :
    (build_toc path es sc sko).2 =
      (_find_content_structure path es sc (sko.getD [])).2 := by
  rw [build_toc]
  rcases heq : _find_content_structure path es sc (sko.getD []) with ⟨fst, snd⟩
  cases fst <;> simp

/-- C10: when the caller passes a `skip_text` list to `build_toc`, that list
is (in Python) mutated in place: after the call it has grown by exactly one
`".ipynb_checkpoints"` entry per directory processed during the recursion
(the root plus every non-skip-marked subdirectory, with content files,
reached from a processed directory).  The model returns the mutated list as
the second component. -/
theorem claim_C10 (path : String) (es : List Entry) (sc : String)
    (sk : List String) :
    (build_toc path es sc (some sk)).2 =
      sk ++ List.replicate (visitCount (sk ++ [checkpointMarker]) path es)
        checkpointMarker := by
  rw [buildToc_snd]
  exact walk_both.1 path es sc sk (sk ++ [checkpointMarker]) (fun p => rfl)

theorem skipMatch_singleton (m p : String) :
    skipMatch [m] p = substrB m p := by
  simp [skipMatch]

theorem skipMatch_replicate_or (k : Nat) (m p : String) :
    (skipMatch (List.replicate k m) p || substrB m p) = substrB m p := by
  induction k with
  | zero => simp [skipMatch]
  | succ n ih =>
    rw [List.replicate_succ]
    simp only [skipMatch, List.any_cons] at ih ⊢
    cases h : substrB m p <;> simp [h] at ih ⊢
    try exact ih

theorem skipMatch_grown (sk : List String) (k : Nat) (m p : String) :
    skipMatch ((sk ++ List.replicate k m) ++ [m]) p =
      skipMatch (sk ++ [m]) p := by
  rw [skipMatch_append, skipMatch_append, skipMatch_append,
    skipMatch_singleton, Bool.or_assoc, skipMatch_replicate_or]

theorem fst_skip_invariant :
    (∀ (path : String) (es : List Entry) (sc : String) (sk1 sk2 : List String),
       (∀ p, skipMatch (sk1 ++ [checkpointMarker]) p =
             skipMatch (sk2 ++ [checkpointMarker]) p) →
       (_find_content_structure path es sc sk1).1 =
         (_find_content_structure path es sc sk2).1) ∧
    (∀ (path : String) (fs : List Entry) (sc : String) (sk1 : List String),
       checkpointMarker ∈ sk1 →
       ∀ sk2 : List String, checkpointMarker ∈ sk2 →
       (∀ p, skipMatch sk1 p = skipMatch sk2 p) →
       (processFolders path fs sc sk1).1 =
         (processFolders path fs sc sk2).1) := by
  refine _find_content_structure.mutual_induct
    (fun path es sc sk1 =>
      ∀ sk2 : List String,
        (∀ p, skipMatch (sk1 ++ [checkpointMarker]) p =
              skipMatch (sk2 ++ [checkpointMarker]) p) →
        (_find_content_structure path es sc sk1).1 =
          (_find_content_structure path es sc sk2).1)
    (fun path fs sc sk1 =>
      checkpointMarker ∈ sk1 →
      ∀ sk2 : List String, checkpointMarker ∈ sk2 →
        (∀ p, skipMatch sk1 p = skipMatch sk2 p) →
        (processFolders path fs sc sk1).1 =
          (processFolders path fs sc sk2).1)
    ?_ ?_ ?_ ?_ ?_ ?_ ?_ |>.imp (fun a => a) (fun a => a)
  · intro path es sc sk1 cf hempty sk2 hpred
    rw [fcs_empty path es sc sk1 hempty, fcs_empty path es sc sk2 hempty]
  · intro path es sc sk1 skT cf hne ih sk2 hpred
    rw [fcs_nonempty path es sc sk1 hne, fcs_nonempty path es sc sk2 hne]
    have hfk : fileChildren (sk1 ++ [checkpointMarker])
        (pickFirstContent (contentPaths path es)).2 =
        fileChildren (sk2 ++ [checkpointMarker])
        (pickFirstContent (contentPaths path es)).2 := by
      rw [fileChildren, fileChildren, List.filter_congr
        (fun f _ => by rw [hpred f])]
    have hpf : (processFolders path es sc (sk1 ++ [checkpointMarker])).1 =
        (processFolders path es sc (sk2 ++ [checkpointMarker])).1 :=
      ih (List.mem_append_right sk1 (List.mem_singleton_self _)) _
        (List.mem_append_right sk2 (List.mem_singleton_self _)) hpred
    simp only [hfk, hpf]
  · intro path sc sk1 hm1 sk2 hm2 hpred
    rw [pf_nil, pf_nil]
  · intro path sc sk1 a rest ih hm1 sk2 hm2 hpred
    rw [pf_file, pf_file]
    exact ih hm1 sk2 hm2 hpred
  · intro path sc sk1 dn sub rest fpath hskip ih hm1 sk2 hm2 hpred
    rw [pf_dir_skip path dn sub rest sc sk1 hskip,
      pf_dir_skip path dn sub rest sc sk2 (by rw [← hpred]; exact hskip)]
    exact ih hm1 sk2 hm2 hpred
  · intro path sc sk1 dn sub rest fpath hskip node sk1' heq ihf ihp hm1 sk2 hm2 hpred
    have hskip2 : ¬ skipMatch sk2 (path ++ "/" ++ dn) = true := by
      rw [← hpred]; exact hskip
    have hchild : (_find_content_structure (path ++ "/" ++ dn) sub sc sk2).1 = some node := by
      have := ihf sk2 (fun p => by
        rw [skipMatch_append_mem _ _ hm1, skipMatch_append_mem _ _ hm2, hpred])
      rw [heq] at this
      exact this.symm
    have heq2 : _find_content_structure (path ++ "/" ++ dn) sub sc sk2 =
        (some node, (_find_content_structure (path ++ "/" ++ dn) sub sc sk2).2) := by
      rw [← hchild]
    have hsk1' : sk1' = sk1 ++ List.replicate
        (visitCount (sk1 ++ [checkpointMarker]) (path ++ "/" ++ dn) sub) checkpointMarker := by
      have := walk_both.1 (path ++ "/" ++ dn) sub sc sk1 (sk1 ++ [checkpointMarker]) (fun p => rfl)
      rw [heq] at this
      exact this
    have hsk2' : (_find_content_structure (path ++ "/" ++ dn) sub sc sk2).2 =
        sk2 ++ List.replicate
        (visitCount (sk2 ++ [checkpointMarker]) (path ++ "/" ++ dn) sub) checkpointMarker :=
      walk_both.1 (path ++ "/" ++ dn) sub sc sk2 (sk2 ++ [checkpointMarker]) (fun p => rfl)
    rw [pf_dir_some path dn sub rest sc sk1 sk1' node hskip heq,
      pf_dir_some path dn sub rest sc sk2 _ node hskip2 heq2]
    have hrest : (processFolders path rest sc sk1').1 =
        (processFolders path rest sc
          ((_find_content_structure (path ++ "/" ++ dn) sub sc sk2).2)).1 := by
      apply ihp (by rw [hsk1']; exact List.mem_append_left _ hm1)
      · rw [hsk2']; exact List.mem_append_left _ hm2
      · intro p
        rw [hsk1', hsk2', skipMatch_append_replicate sk1 checkpointMarker hm1,
          skipMatch_append_replicate sk2 checkpointMarker hm2, hpred]
    simp only [hrest]
  · intro path sc sk1 dn sub rest fpath hskip sk1' heq ihf ihp hm1 sk2 hm2 hpred
    have hskip2 : ¬ skipMatch sk2 (path ++ "/" ++ dn) = true := by
      rw [← hpred]; exact hskip
    have hchild : (_find_content_structure (path ++ "/" ++ dn) sub sc sk2).1 = none := by
      have := ihf sk2 (fun p => by
        rw [skipMatch_append_mem _ _ hm1, skipMatch_append_mem _ _ hm2, hpred])
      rw [heq] at this
      exact this.symm
    have heq2 : _find_content_structure (path ++ "/" ++ dn) sub sc sk2 =
        (none, (_find_content_structure (path ++ "/" ++ dn) sub sc sk2).2) := by
      rw [← hchild]
    have hsk1' : sk1' = sk1 ++ List.replicate
        (visitCount (sk1 ++ [checkpointMarker]) (path ++ "/" ++ dn) sub) checkpointMarker := by
      have := walk_both.1 (path ++ "/" ++ dn) sub sc sk1 (sk1 ++ [checkpointMarker]) (fun p => rfl)
      rw [heq] at this
      exact this
    have hsk2' : (_find_content_structure (path ++ "/" ++ dn) sub sc sk2).2 =
        sk2 ++ List.replicate
        (visitCount (sk2 ++ [checkpointMarker]) (path ++ "/" ++ dn) sub) checkpointMarker :=
      walk_both.1 (path ++ "/" ++ dn) sub sc sk2 (sk2 ++ [checkpointMarker]) (fun p => rfl)
    rw [pf_dir_none path dn sub rest sc sk1 sk1' hskip heq,
      pf_dir_none path dn sub rest sc sk2 _ hskip2 heq2]
    apply ihp (by rw [hsk1']; exact List.mem_append_left _ hm1)
    · rw [hsk2']; exact List.mem_append_left _ hm2
    · intro p
      rw [hsk1', hsk2', skipMatch_append_replicate sk1 checkpointMarker hm1,
        skipMatch_append_replicate sk2 checkpointMarker hm2, hpred]

theorem buildToc_fst_congr (path : String) (es : List Entry) (sc : String)
    (sko1 sko2 : Option (List String))
    (h : (_find_content_structure path es sc (sko1.getD [])).1 =
         (_find_content_structure path es sc (sko2.getD [])).1) :
    (build_toc path es sc sko1).1 = (build_toc path es sc sko2).1 := by
  rw [build_toc, build_toc]
  rcases h1 : _find_content_structure path es sc (sko1.getD []) with ⟨f1, s1⟩
  rcases h2 : _find_content_structure path es sc (sko2.getD []) with ⟨f2, s2⟩
  rw [h1, h2] at h
  simp only at h
  subst h
  cases f1 <;> simp

/-- C9 (amended): generation applies no sorting and is a pure function of
the directory listing order; in particular a second `build_toc` run over
the unchanged tree — even through the same, now marker-grown, `skip_text`
list the first run mutated — produces the identical serialized output. -/
theorem claim_C9 (path : String) (es : List Entry) (sc : String)
    (sk : List String) :
    (build_toc path es sc (some ((build_toc path es sc (some sk)).2))).1 =
      (build_toc path es sc (some sk)).1 := by
  apply buildToc_fst_congr
  have hsnd : (build_toc path es sc (some sk)).2 =
      sk ++ List.replicate (visitCount (sk ++ [checkpointMarker]) path es)
        checkpointMarker := by
    rw [buildToc_snd]
    exact walk_both.1 path es sc sk (sk ++ [checkpointMarker]) (fun p => rfl)
  rw [hsnd]
  exact fst_skip_invariant.1 path es sc _ sk
    (fun p => skipMatch_grown sk _ checkpointMarker p)

/-- C9 is false as stated: entries are not sorted lexicographically before
the index-first rule, so two listings of the same files in different
filesystem orders serialize to different bytes (here the parent node
differs). -/
theorem claim_C9_counterexample :
    (List.Perm ([Entry.file "b.md", Entry.file "a.md"].map Entry.entryName)
      ([Entry.file "a.md", Entry.file "b.md"].map Entry.entryName)) ∧
    (build_toc "book" [Entry.file "b.md", Entry.file "a.md"] "_" none).1 =
      Except.ok "file: book/b\ntitle: B\npages:\n  -\n   file: book/a\n   title: A\n" ∧
    (build_toc "book" [Entry.file "a.md", Entry.file "b.md"] "_" none).1 =
      Except.ok "file: book/a\ntitle: A\npages:\n  -\n   file: book/b\n   title: B\n" ∧
    ("file: book/b\ntitle: B\npages:\n  -\n   file: book/a\n   title: A\n" : String) ≠
      "file: book/a\ntitle: A\npages:\n  -\n   file: book/b\n   title: B\n" := by
  refine ⟨by decide, ?_, ?_, by decide⟩
  · simp +decide [build_toc, fcs_nonempty, pickFirstContent, popIndexLoop_zero,
      scanPop, fileChildren, pf_nil, pf_file, _content_path_to_yaml,
      _filename_to_title, splitOnSep, titleCaseWord, yamlDump, yamlDumpList,
      TocNode.withPages]
  · simp +decide [build_toc, fcs_nonempty, pickFirstContent, popIndexLoop_zero,
      scanPop, fileChildren, pf_nil, pf_file, _content_path_to_yaml,
      _filename_to_title, splitOnSep, titleCaseWord, yamlDump, yamlDumpList,
      TocNode.withPages]

theorem treeFilesList_nil : treeFilesList [] = [] := by
  rw [treeFilesList]

theorem treeFilesList_cons (n : TocNode) (rest : List TocNode) :
    treeFilesList (n :: rest) = treeFiles n ++ treeFilesList rest := by
  rw [treeFilesList]

theorem treeFilesList_append (a b : List TocNode) :
    treeFilesList (a ++ b) = treeFilesList a ++ treeFilesList b := by
  induction a with
  | nil => rw [treeFilesList_nil]; simp
  | cons n t ih => simp [treeFilesList_cons, ih]

theorem treeFiles_leaf (k : Option String) (a b : Option String) (c : Bool) :
    treeFiles (TocNode.mk k a b c none) = k.toList := by
  rw [treeFiles]

theorem treeFiles_withPages (k : Option String) (a b : Option String)
    (c : Bool) (p0 : Option (List TocNode)) (l : List TocNode) :
    treeFiles ((TocNode.mk k a b c p0).withPages
      (if l.isEmpty then none else some l)) = k.toList ++ treeFilesList l := by
  cases l with
  | nil => simp [TocNode.withPages, treeFiles_leaf, treeFilesList_nil]
  | cons n t =>
    simp only [List.isEmpty_cons, if_false, TocNode.withPages, Bool.false_eq_true]
    rw [treeFiles]

theorem treeFilesList_leaves (l : List String) :
    treeFilesList (l.map (fun f => _content_path_to_yaml f "_")) =
      l.map fileKey := by
  induction l with
  | nil => simp [treeFilesList_nil]
  | cons f t ih =>
    simp only [List.map_cons, treeFilesList_cons, ih]
    rw [_content_path_to_yaml]
    simp only [treeFiles_leaf]
    rw [fileKey]
    simp

theorem selectParent_eq_pick (cfs : List String) (hne : ¬ cfs.isEmpty = true)
    (hone : cfs.countP isIndexFile ≤ 1) :
    selectParent cfs = some (pickFirstContent cfs) := by
  cases cfs with
  | nil => simp at hne
  | cons f0 t =>
    rw [selectParent, pickFirstContent, popIndexLoop_zero, scanPop_spec _ hone]
    cases hf : (f0 :: t).find? isIndexFile with
    | some ixf => simp [hf]
    | none => simp [hf]

theorem files_master :
    (∀ (path : String) (es : List Entry) (sc : String) (sk : List String),
       ∀ S : List String,
         (∀ p, skipMatch (sk ++ [checkpointMarker]) p = skipMatch S p) →
         oneIndexAll path es = true →
         treeFilesOpt (_find_content_structure path es sc sk).1 =
           (eligibleFiles S path es).map fileKey) ∧
    (∀ (path : String) (fs : List Entry) (sc : String) (sk : List String),
       checkpointMarker ∈ sk →
       ∀ S : List String,
         (∀ p, skipMatch sk p = skipMatch S p) →
         oneIndexAllDirs path fs = true →
         treeFilesList (processFolders path fs sc sk).1 =
           (eligibleDirs S path fs).map fileKey) := by
  refine _find_content_structure.mutual_induct
    (fun path es sc sk =>
      ∀ S : List String,
        (∀ p, skipMatch (sk ++ [checkpointMarker]) p = skipMatch S p) →
        oneIndexAll path es = true →
        treeFilesOpt (_find_content_structure path es sc sk).1 =
          (eligibleFiles S path es).map fileKey)
    (fun path fs sc sk =>
      checkpointMarker ∈ sk →
      ∀ S : List String,
        (∀ p, skipMatch sk p = skipMatch S p) →
        oneIndexAllDirs path fs = true →
        treeFilesList (processFolders path fs sc sk).1 =
          (eligibleDirs S path fs).map fileKey)
    ?_ ?_ ?_ ?_ ?_ ?_ ?_
  · -- no content files: nothing is contributed
    intro path es sc sk cf hempty S hpred hidx
    rw [fcs_empty path es sc sk hempty]
    have hnil : contentPaths path es = [] := List.isEmpty_iff.mp hempty
    rw [eligibleFiles, hnil, selectParent]
    rfl
  · -- content files exist: parent, file children, then folder children
    intro path es sc sk skT cf hne ih S hpred hidx
    rw [oneIndexAll] at hidx
    rw [Bool.and_eq_true] at hidx
    rcases hidx with ⟨hone, hdirs⟩
    have hone' : (contentPaths path es).countP isIndexFile ≤ 1 :=
      of_decide_eq_true hone
    rw [fcs_nonempty path es sc sk hne]
    simp only [treeFilesOpt]
    rw [_content_path_to_yaml]
    rw [treeFiles_withPages, fileChildren, treeFilesList_append,
      treeFilesList_leaves, eligibleFiles,
      selectParent_eq_pick (contentPaths path es) hne hone']
    simp only [List.map_cons, List.map_append]
    rw [ih (List.mem_append_right sk (List.mem_singleton_self _)) S hpred hdirs]
    rw [List.filter_congr (fun f _ => by rw [hpred f])]
    rw [fileKey]
    simp
  · -- folders: nil
    intro path sc sk hm S hpred hidx
    rw [pf_nil, eligibleDirs, treeFilesList_nil]
    rfl
  · -- folders: plain file entry
    intro path sc sk a rest ih hm S hpred hidx
    rw [pf_file, eligibleDirs]
    exact ih hm S hpred (by rw [oneIndexAllDirs] at hidx; exact hidx)
  · -- folders: skip-marked subdirectory
    intro path sc sk dn sub rest fpath hskip ih hm S hpred hidx
    rw [oneIndexAllDirs] at hidx
    rw [Bool.and_eq_true] at hidx
    rcases hidx with ⟨hsub, hrest⟩
    rw [pf_dir_skip path dn sub rest sc sk hskip, eligibleDirs,
      if_pos (by rw [← hpred]; exact hskip)]
    exact ih hm S hpred hrest
  · -- folders: subdirectory contributing a node
    intro path sc sk dn sub rest fpath hskip node sk1 heq ihf ihp hm S hpred hidx
    rw [oneIndexAllDirs] at hidx
    rw [Bool.and_eq_true] at hidx
    rcases hidx with ⟨hsub, hrest⟩
    have hsk1 : sk1 = sk ++ List.replicate
        (visitCount S (path ++ "/" ++ dn) sub) checkpointMarker := by
      have := walk_both.1 (path ++ "/" ++ dn) sub sc sk S
        (fun p => by rw [skipMatch_append_mem _ _ hm, hpred])
      rw [heq] at this
      exact this
    have hchild := ihf S (fun p => by rw [skipMatch_append_mem _ _ hm, hpred]) hsub
    rw [heq] at hchild
    simp only [treeFilesOpt] at hchild
    rw [pf_dir_some path dn sub rest sc sk sk1 node hskip heq,
      eligibleDirs, if_neg (by rw [← hpred]; exact hskip),
      treeFilesList_cons, List.map_append, hchild]
    congr 1
    apply ihp (by rw [hsk1]; exact List.mem_append_left _ hm) S ?_ hrest
    intro p
    rw [hsk1, skipMatch_append_replicate sk checkpointMarker hm, hpred]
  · -- folders: subdirectory contributing nothing (no content below it)
    intro path sc sk dn sub rest fpath hskip sk1 heq ihf ihp hm S hpred hidx
    rw [oneIndexAllDirs] at hidx
    rw [Bool.and_eq_true] at hidx
    rcases hidx with ⟨hsub, hrest⟩
    have hsk1 : sk1 = sk ++ List.replicate
        (visitCount S (path ++ "/" ++ dn) sub) checkpointMarker := by
      have := walk_both.1 (path ++ "/" ++ dn) sub sc sk S
        (fun p => by rw [skipMatch_append_mem _ _ hm, hpred])
      rw [heq] at this
      exact this
    have hchild := ihf S (fun p => by rw [skipMatch_append_mem _ _ hm, hpred]) hsub
    rw [heq] at hchild
    simp only [treeFilesOpt] at hchild
    rw [pf_dir_none path dn sub rest sc sk sk1 hskip heq,
      eligibleDirs, if_neg (by rw [← hpred]; exact hskip),
      List.map_append, ← hchild]
    simp only [List.nil_append]
    apply ihp (by rw [hsk1]; exact List.mem_append_left _ hm) S ?_ hrest
    intro p
    rw [hsk1, skipMatch_append_replicate sk checkpointMarker hm, hpred]

theorem pagesInvariantList_nil : pagesInvariantList [] = true := by
  rw [pagesInvariantList]

theorem pagesInvariantList_cons (n : TocNode) (rest : List TocNode) :
    pagesInvariantList (n :: rest) =
      (pagesInvariant n && pagesInvariantList rest) := by
  rw [pagesInvariantList]

theorem pagesInvariantList_append (a b : List TocNode)
    (ha : pagesInvariantList a = true) (hb : pagesInvariantList b = true) :
    pagesInvariantList (a ++ b) = true := by
  induction a with
  | nil => simpa using hb
  | cons n t ih =>
    rw [pagesInvariantList_cons, Bool.and_eq_true] at ha
    rw [List.cons_append, pagesInvariantList_cons, Bool.and_eq_true]
    exact ⟨ha.1, ih ha.2⟩

theorem pagesInvariant_leaf (k a b : Option String) (c : Bool) :
    pagesInvariant (TocNode.mk k a b c none) = true := by
  rw [pagesInvariant]

theorem pagesInvariantList_leaves (l : List String) (sc : String) :
    pagesInvariantList (l.map (fun f => _content_path_to_yaml f sc)) = true := by
  induction l with
  | nil => exact pagesInvariantList_nil
  | cons f t ih =>
    rw [List.map_cons, pagesInvariantList_cons, _content_path_to_yaml]
    simp only [pagesInvariant_leaf, Bool.true_and]
    exact ih

theorem invar_master :
    (∀ (path : String) (es : List Entry) (sc : String) (sk : List String),
       pagesInvariantOpt (_find_content_structure path es sc sk).1 = true) ∧
    (∀ (path : String) (fs : List Entry) (sc : String) (sk : List String),
       pagesInvariantList (processFolders path fs sc sk).1 = true) := by
  refine _find_content_structure.mutual_induct
    (fun path es sc sk =>
      pagesInvariantOpt (_find_content_structure path es sc sk).1 = true)
    (fun path fs sc sk =>
      pagesInvariantList (processFolders path fs sc sk).1 = true)
    ?_ ?_ ?_ ?_ ?_ ?_ ?_
  · intro path es sc sk cf hempty
    rw [fcs_empty path es sc sk hempty]
    rfl
  · intro path es sc sk skT cf hne ih
    rw [fcs_nonempty path es sc sk hne]
    simp only [pagesInvariantOpt]
    rw [_content_path_to_yaml]
    cases hl : (fileChildren (sk ++ [checkpointMarker])
        (pickFirstContent (contentPaths path es)).2 ++
        (processFolders path es sc (sk ++ [checkpointMarker])).1).isEmpty with
    | true =>
      simp only [hl, if_true, TocNode.withPages]
      exact pagesInvariant_leaf _ _ _ _
    | false =>
      simp only [hl, TocNode.withPages, Bool.false_eq_true, if_false]
      rw [pagesInvariant, hl]
      simp only [Bool.not_false, Bool.true_and]
      apply pagesInvariantList_append
      · rw [fileChildren]
        exact pagesInvariantList_leaves _ _
      · exact ih
  · intro path sc sk
    rw [pf_nil]
    exact pagesInvariantList_nil
  · intro path sc sk a rest ih
    rw [pf_file]
    exact ih
  · intro path sc sk dn sub rest fpath hskip ih
    rw [pf_dir_skip path dn sub rest sc sk hskip]
    exact ih
  · intro path sc sk dn sub rest fpath hskip node sk1 heq ihf ihp
    rw [pf_dir_some path dn sub rest sc sk sk1 node hskip heq,
      pagesInvariantList_cons, Bool.and_eq_true]
    refine ⟨?_, ihp⟩
    have := ihf
    rw [heq] at this
    simpa [pagesInvariantOpt] using this
  · intro path sc sk dn sub rest fpath hskip sk1 heq ihf ihp
    rw [pf_dir_none path dn sub rest sc sk sk1 hskip heq]
    exact ihp

/-- C3 (amended): for a tree built by `build_toc`/`_find_content_structure`
over a directory whose subtree has at most one `index`-stemmed content file
per directory, the `file` identifiers of the tree's nodes are exactly, once
each and in traversal order, the eligible files: for every processed
directory, its selected parent file — even when the parent's path contains a
skip marker — followed by its other content files whose paths contain no
skip marker; files below barren (no content file) or skip-marked
directories do not appear. -/
theorem claim_C3 (path : String) (es : List Entry) (sc : String)
    (sk : List String) (hidx : oneIndexAll path es = true) :
    treeFilesOpt (_find_content_structure path es sc sk).1 =
      (eligibleFiles (sk ++ [checkpointMarker]) path es).map fileKey :=
  files_master.1 path es sc sk (sk ++ [checkpointMarker]) (fun _ => rfl) hidx

theorem claim_C3_witness :
    treeFilesOpt (_find_content_structure "book"
      [Entry.file "index.md", Entry.file "ch1.md",
       Entry.dir "appendix" [Entry.file "a1.md"]] "_" []).1 =
      (eligibleFiles [checkpointMarker] "book"
        [Entry.file "index.md", Entry.file "ch1.md",
         Entry.dir "appendix" [Entry.file "a1.md"]]).map fileKey :=
  claim_C3 "book"
    [Entry.file "index.md", Entry.file "ch1.md",
     Entry.dir "appendix" [Entry.file "a1.md"]] "_" []
    (by simp +decide [oneIndexAll, oneIndexAllDirs])

/-- C3 is false as stated: the parent-selection of lines 157-162 happens
before the skip check of line 168, so a skip-marked file can become a
directory's parent node and appear in the tree: with skip marker
`"secret"`, the file `book/secret.md` matches the marker yet appears as the
tree's root node. -/
theorem claim_C3_counterexample :
    substrB "secret" "book/secret.md" = true ∧
    treeFilesOpt (_find_content_structure "book"
      [Entry.file "secret.md", Entry.file "b.md"] "_" ["secret"]).1 =
      ["book/secret", "book/b"] := by
  constructor
  · decide
  · simp +decide [fcs_nonempty, pickFirstContent, popIndexLoop_zero, scanPop,
      fileChildren, pf_nil, pf_file, _content_path_to_yaml, treeFilesOpt,
      treeFiles, treeFilesList, TocNode.withPages]

/-- The loader normalization `update_indexname` preserves the `pages`
invariant when the persisted description already satisfies it. -/
theorem normalizeToc_invariant (t : TocInput) (r : TocNode)
    (ht : pagesInvariantInput t = true) (hr : normalizeToc t = some r) :
    pagesInvariant r = true := by
  cases t with
  | node n =>
    simp only [normalizeToc, Option.some.injEq] at hr
    subst hr
    exact ht
  | list l =>
    cases l with
    | nil => simp [normalizeToc] at hr
    | cons n rest =>
      simp only [normalizeToc, Option.some.injEq] at hr
      subst hr
      simp only [pagesInvariantInput, pagesInvariantList_cons,
        Bool.and_eq_true] at ht
      cases hrest : rest.isEmpty with
      | true => simpa [hrest] using ht.1
      | false =>
        simp only [hrest, Bool.false_eq_true, if_false]
        cases n with
        | mk f nm tt nb pgs =>
          simp only [TocNode.withPages]
          rw [pagesInvariant, hrest]
          simpa using ht.2

/-- C5 (amended): every node generation produces satisfies the `pages`
invariant (absent key, or a non-empty child list) unconditionally, and
loader normalization preserves the invariant when the loaded description
satisfies it — but does not establish it for arbitrary loaded input. -/
theorem claim_C5 :
    (∀ (path : String) (es : List Entry) (sc : String) (sk : List String),
       pagesInvariantOpt (_find_content_structure path es sc sk).1 = true) ∧
    (∀ (t : TocInput) (r : TocNode), pagesInvariantInput t = true →
       normalizeToc t = some r → pagesInvariant r = true) :=
  ⟨invar_master.1, normalizeToc_invariant⟩

theorem claim_C5_witness :
    pagesInvariantOpt (_find_content_structure "book"
      [Entry.file "index.md", Entry.file "ch1.md"] "_" []).1 = true ∧
    pagesInvariant (TocNode.mk (some "a") none none false none) = true :=
  ⟨claim_C5.1 "book" [Entry.file "index.md", Entry.file "ch1.md"] "_" [],
   claim_C5.2 (TocInput.list [TocNode.mk (some "a") none none false none])
     (TocNode.mk (some "a") none none false none)
     (by simp +decide [pagesInvariantInput, pagesInvariantList,
        pagesInvariant]) rfl⟩

/-- C5 is false as stated for the loader: `update_indexname` passes an
author-written empty `pages: []` list straight through (the
single-element-list branch reassigns nothing), producing a root that
violates the invariant. -/
theorem claim_C5_counterexample :
    normalizeToc (TocInput.list [TocNode.mk (some "a") none none false
        (some [])]) =
      some (TocNode.mk (some "a") none none false (some [])) ∧
    pagesInvariant (TocNode.mk (some "a") none none false (some [])) =
      false := by
  constructor
  · rfl
  · rw [pagesInvariant]
    simp [pagesInvariantList_nil]

theorem takeWhile_append_of_all {q : Char → Bool} (l1 l2 : List Char)
    (h : ∀ x ∈ l1, q x = true) :
    (l1 ++ l2).takeWhile q = l1 ++ l2.takeWhile q := by
  induction l1 with
  | nil => simp
  | cons a t ih =>
    rw [List.cons_append, List.takeWhile_cons, h a (by simp),
      ih (fun x hx => h x (by simp [hx]))]
    simp

theorem mem_takeWhile_pred {q : Char → Bool} (l : List Char) (c : Char)
    (h : c ∈ l.takeWhile q) : q c = true := by
  induction l with
  | nil => simp [List.takeWhile] at h
  | cons a t ih =>
    rw [List.takeWhile_cons] at h
    cases hq : q a with
    | true =>
      rw [hq] at h
      simp only [if_true, List.mem_cons] at h
      rcases h with he | hm
      · rw [he]; exact hq
      · exact ih hm
    | false => rw [hq] at h; simp at h

theorem head?_dropWhile_false {q : Char → Bool} (l : List Char) (c : Char)
    (h : (l.dropWhile q).head? = some c) : q c = false := by
  induction l with
  | nil => simp [List.dropWhile] at h
  | cons a t ih =>
    rw [List.dropWhile_cons] at h
    cases hq : q a with
    | true => rw [hq] at h; simp at h; exact ih h
    | false =>
      rw [hq] at h
      simp only [Bool.false_eq_true, if_false, List.head?_cons,
        Option.some.injEq] at h
      rw [← h]
      exact hq

theorem mem_lastCompChars_ne_sep (cs : List Char) (c : Char)
    (h : c ∈ lastCompChars cs) : c ≠ sepChar := by
  rw [lastCompChars, List.mem_reverse] at h
  have := mem_takeWhile_pred _ _ h
  simpa using this

theorem stem_subset_name (name : List Char) (c : Char)
    (h : c ∈ (stemSuffixChars name).1) : c ∈ name := by
  rw [stemSuffixChars] at h
  simp only at h
  split at h
  · split at h
    · exact List.take_subset _ _ h
    · exact h
  · exact h

theorem dirPrefixChars_getLast (cs : List Char)
    (hne : dirPrefixChars cs ≠ []) :
    (dirPrefixChars cs).getLast? = some sepChar := by
  rw [dirPrefixChars] at hne ⊢
  rw [List.getLast?_reverse]
  cases hh : (cs.reverse.dropWhile (fun c => c ≠ sepChar)).head? with
  | none =>
    rw [List.head?_eq_none_iff] at hh
    rw [hh] at hne
    simp at hne
  | some c =>
    have hc := head?_dropWhile_false _ _ hh
    simp only [decide_not, Bool.not_eq_false', decide_eq_true_eq] at hc
    exact congrArg some hc

theorem lastCompChars_append (pre stem : List Char)
    (hstem : ∀ c ∈ stem, c ≠ sepChar)
    (hpre : pre = [] ∨ pre.getLast? = some sepChar) :
    lastCompChars (pre ++ stem) = stem := by
  rw [lastCompChars, List.reverse_append,
    takeWhile_append_of_all _ _ (fun x hx => by
      simp only [List.mem_reverse] at hx
      simpa using hstem x hx)]
  have hrest : pre.reverse.takeWhile (fun c => c ≠ sepChar) = [] := by
    cases hpre with
    | inl h => rw [h]; rfl
    | inr h =>
      cases hr : pre.reverse with
      | nil => rfl
      | cons a t =>
        have ha : a = sepChar := by
          have : pre.reverse.head? = some sepChar := by
            rw [List.head?_reverse]; exact h
          rw [hr] at this
          simpa using this
        rw [List.takeWhile_cons, ha]
        simp
  rw [hrest]
  simp

/-- `Path(p).with_suffix("").name`: taking the final component after
stripping the suffix gives the stem of the final component. -/
theorem lastComponent_withoutSuffix (p : String) :
    lastComponent (withoutSuffix p) = stemOf p := by
  rw [lastComponent, withoutSuffix, stemOf]
  have htl : ((dirPrefixChars p.toList ++
      (stemSuffixChars (lastCompChars p.toList)).1).asString).toList =
      dirPrefixChars p.toList ++ (stemSuffixChars (lastCompChars p.toList)).1 :=
    rfl
  rw [htl, lastCompChars_append]
  · intro c hc
    exact mem_lastCompChars_ne_sep p.toList c (stem_subset_name _ c hc)
  · by_cases hd : dirPrefixChars p.toList = []
    · exact Or.inl hd
    · exact Or.inr (dirPrefixChars_getLast p.toList hd)

/-- C4: in every directory holding exactly one content file with stem
`"index"` (the claim's "that file"), generation selects that file as the
directory's parent node, and its title is derived — split on the split
character, title-cased — from the containing directory's name, not from the
word `"index"`. -/
theorem claim_C4 (path : String) (es : List Entry) (sc : String)
    (sk : List String) (ixf : String)
    (hone : (contentPaths path es).countP isIndexFile ≤ 1)
    (hfind : (contentPaths path es).find? isIndexFile = some ixf) :
    ((_find_content_structure path es sc sk).1.map TocNode.file) =
      some (some (fileKey ixf)) ∧
    ((_find_content_structure path es sc sk).1.map TocNode.title) =
      some (some (_filename_to_title (parentDirName (withoutSuffix ixf)) sc)) := by
  have hne : ¬ (contentPaths path es).isEmpty = true := by
    cases hcc : contentPaths path es with
    | nil => rw [hcc] at hfind; simp at hfind
    | cons a t => simp
  have hpick : (pickFirstContent (contentPaths path es)).1 = ixf := by
    have hsp := selectParent_eq_pick (contentPaths path es) hne hone
    cases hcc : contentPaths path es with
    | nil => rw [hcc] at hfind; simp at hfind
    | cons f0 t =>
      rw [hcc] at hsp hfind
      rw [selectParent, hfind] at hsp
      have hp := Option.some.inj hsp
      exact (congrArg Prod.fst hp).symm
  have hidx : isIndexFile ixf = true := List.find?_some hfind
  have hstem : stemOf ixf = "index" := of_decide_eq_true hidx
  have hlast : lastComponent (withoutSuffix ixf) = "index" := by
    rw [lastComponent_withoutSuffix]; exact hstem
  rw [fcs_nonempty path es sc sk hne, hpick, _content_path_to_yaml]
  constructor
  · simp [TocNode.withPages, TocNode.file, fileKey]
  · simp [TocNode.withPages, TocNode.title, hlast]

theorem claim_C4_witness :
    ((_find_content_structure "book"
        [Entry.file "ch1.md", Entry.file "index.md"] "_" []).1.map
      TocNode.file) = some (some (fileKey "book/index.md")) ∧
    ((_find_content_structure "book"
        [Entry.file "ch1.md", Entry.file "index.md"] "_" []).1.map
      TocNode.title) =
      some (some (_filename_to_title
        (parentDirName (withoutSuffix "book/index.md")) "_")) :=
  claim_C4 "book" [Entry.file "ch1.md", Entry.file "index.md"] "_" []
    "book/index.md" (by decide) (by decide)

/-- C2 (code bug): `build_toc` is documented to use `filename_split_char`
for inferring page titles, and line 163 passes it for the parent, but line
170 calls `_content_path_to_yaml(content_file)` without it, so child leaf
titles are always derived with the default `"_"`.  With split char `"-"`
the child `my-page.md` is titled `"My-page"` (one `"_"`-word, title-cased)
instead of the claimed `"My Page"`. -/
theorem claim_C2 :
    ((_find_content_structure "book"
        [Entry.file "index.md", Entry.file "my-page.md"] "-" []).1.map
      (fun n => (n.pages.getD []).map TocNode.title)) =
      some [some "My-page"] ∧
    _filename_to_title "my-page" "-" = "My Page" ∧
    ("My-page" : String) ≠ "My Page" := by
  refine ⟨?_, by decide, by decide⟩
  simp +decide [fcs_nonempty, pickFirstContent, popIndexLoop_zero, scanPop,
    fileChildren, pf_nil, pf_file, _content_path_to_yaml, TocNode.withPages,
    TocNode.pages, TocNode.title, _filename_to_title, titleCaseWord]

/-- C6: with a configured TOC, a document absent from the loaded tree makes
`add_toctree` raise an error whose message names the document's path (the
source buffer untouched), while a found node with zero children is a no-op
returning the buffer unchanged. -/
theorem claim_C6 (gp : String) (toc : TocInput) (path : String)
    (src : SourceBuf) (hgp : ¬ gp = "") :
    (find_name' toc (_no_suffix path) = none →
       add_toctree gp toc path src = Except.error (tocMissingMsg path) ∧
       substrB path (tocMissingMsg path) = true) ∧
    (foundEmptyPages (find_name' toc (_no_suffix path)) = true →
       add_toctree gp toc path src = Except.ok src) := by
  constructor
  · intro hnone
    refine ⟨by rw [add_toctree, if_neg hgp, hnone], ?_⟩
    rw [substrB]
    apply decide_eq_true
    rw [tocMissingMsg]
    refine ⟨"The following path in your table of contents couldn\x27t be found:\n\n".toList,
      ".\n\nDouble check your `_toc.yml` file to make sure the paths are correct.".toList, ?_⟩
    simp
  · intro hempty
    cases hf : find_name' toc (_no_suffix path) with
    | none => rw [hf] at hempty; simp [foundEmptyPages] at hempty
    | some page =>
      rw [hf] at hempty
      simp only [foundEmptyPages] at hempty
      rw [add_toctree, if_neg hgp, hf]
      simp [hempty, List.isEmpty_iff.mp hempty]

theorem map_isEmpty {α β : Type} (f : α → β) (l : List α) :
    (l.map f).isEmpty = l.isEmpty := by
  cases l <;> simp

/-- C7: for a found page with children, injection dispatches on the
document's suffix: `.md` appends the directive plus a blank line after the
unchanged original text, `.ipynb` appends a markdown cell and re-serializes,
and any other suffix raises the unsupported-format error without touching
the buffer. -/
theorem claim_C7 (gp : String) (toc : TocInput) (path : String)
    (page : TocNode) (s : String) (cells : List Cell) (t : String)
    (hgp : ¬ gp = "")
    (hfind : find_name' toc (_no_suffix path) = some page)
    (hsec : ¬ (page.pages.getD []).isEmpty = true)
    (htoc : pageToctree page = Except.ok t) :
    (suffixOf path = ".md" →
       add_toctree gp toc path (SourceBuf.raw s) =
         Except.ok (SourceBuf.raw (s ++ t ++ "\n")) ∧
       s.toList <+: (s ++ t ++ "\n").toList) ∧
    (suffixOf path = ".ipynb" →
       add_toctree gp toc path (SourceBuf.notebook cells) =
         Except.ok (SourceBuf.notebook (cells ++ [Cell.markdown t]))) ∧
    (¬ suffixOf path = ".md" → ¬ suffixOf path = ".ipynb" →
       add_toctree gp toc path (SourceBuf.raw s) =
         Except.error unsupportedMsg ∧
       add_toctree gp toc path (SourceBuf.notebook cells) =
         Except.error unsupportedMsg) := by
  have hmap : ∀ src : SourceBuf, add_toctree gp toc path src =
      (do
        let toctree ← pageToctree page
        let suff := suffixOf path
        if suff = ".md" then
          match src with
          | SourceBuf.raw s0 => pure (SourceBuf.raw (s0 ++ toctree ++ "\n"))
          | SourceBuf.notebook _ =>
            Except.error "source mismatch: markdown file with notebook buffer"
        else if suff = ".ipynb" then
          match src with
          | SourceBuf.notebook cells0 =>
            pure (SourceBuf.notebook (cells0 ++ [Cell.markdown toctree]))
          | SourceBuf.raw _ =>
            Except.error "source mismatch: notebook file with raw buffer"
        else Except.error unsupportedMsg) := by
    intro src
    rw [add_toctree, if_neg hgp, hfind]
    dsimp only
    rw [if_neg (by rw [map_isEmpty]; exact hsec)]
  refine ⟨fun hmd => ⟨?_, ?_⟩, fun hnb => ?_, fun h1 h2 => ⟨?_, ?_⟩⟩
  · rw [hmap, htoc]
    show (if suffixOf path = ".md" then _ else _) = _
    rw [if_pos hmd]
    rfl
  · have heq : (s ++ t ++ "\n").toList = s.toList ++ (t.toList ++ "\n".toList) := by
      simp
    rw [heq]
    exact List.prefix_append _ _
  · rw [hmap, htoc]
    show (if suffixOf path = ".md" then _ else _) = _
    rw [if_neg (by rw [hnb]; decide), if_pos hnb]
    rfl
  · rw [hmap, htoc]
    show (if suffixOf path = ".md" then _ else _) = _
    rw [if_neg h1, if_neg h2]
  · rw [hmap, htoc]
    show (if suffixOf path = ".md" then _ else _) = _
    rw [if_neg h1, if_neg h2]

theorem claim_C6_witness :
    add_toctree "_toc.yml"
      (TocInput.node (TocNode.mk (some "other") none none false none))
      "missing.md" (SourceBuf.raw "x") =
      Except.error (tocMissingMsg "missing.md") ∧
    substrB "missing.md" (tocMissingMsg "missing.md") = true :=
  (claim_C6 "_toc.yml"
    (TocInput.node (TocNode.mk (some "other") none none false none))
    "missing.md" (SourceBuf.raw "x") (by decide)).1
    (by simp +decide [find_name', find_name, _no_suffix, TocNode.file])

theorem claim_C7_witness :
    add_toctree "_toc.yml"
      (TocInput.node (TocNode.mk (some "index") none none false
        (some [TocNode.mk (some "sub/ch1") (some "Chapter One") none false
          none])))
      "index.md" (SourceBuf.raw "# T") =
      Except.ok (SourceBuf.raw
        ("# T" ++ toctreeTemplate "" "Chapter One <sub/ch1>" ++ "\n")) :=
  (((claim_C7 "_toc.yml"
      (TocInput.node (TocNode.mk (some "index") none none false
        (some [TocNode.mk (some "sub/ch1") (some "Chapter One") none false
          none])))
      "index.md"
      (TocNode.mk (some "index") none none false
        (some [TocNode.mk (some "sub/ch1") (some "Chapter One") none false
          none]))
      "# T" [] (toctreeTemplate "" "Chapter One <sub/ch1>")
      (by decide)
      (by simp +decide [find_name', find_name, _no_suffix, TocNode.file])
      (by decide)
      (by rfl)).1) (by decide)).1

theorem mapM_except_ok {α β : Type} (f : α → Except String β) (g : α → β)
    (l : List α) (h : ∀ a ∈ l, f a = Except.ok (g a)) :
    l.mapM f = Except.ok (l.map g) := by
  induction l with
  | nil => rfl
  | cons a t ih =>
    rw [List.mapM_cons, h a (by simp), ih (fun x hx => h x (by simp [hx]))]
    rfl

theorem buildSections_ok (pfile : String) (kids : List TocNode)
    (hall : ∀ k ∈ kids, ¬ k.file = none) :
    buildSections pfile kids = Except.ok (kids.map (fun k =>
      sectionEntry (parentDir pfile) (k.file.getD "") k.name)) := by
  rw [buildSections]
  apply mapM_except_ok
  intro k hk
  cases hf : k.file with
  | none => exact absurd hf (hall k hk)
  | some f => simp [hf]

/-- C8: for a found page, each child entry is the child's path rewritten
relative to the parent document's own containing directory, labelled
`name <relative-path>` when the child has a truthy `name` and bare
otherwise, and the entries appear in the children's declared order inside
the synthesized directive. -/
theorem claim_C8 (page : TocNode) (pf : String)
    (hfile : page.file = some pf)
    (hall : ∀ k ∈ page.pages.getD [], ¬ k.file = none) :
    pageToctree page = Except.ok (toctreeTemplate
      (if page.numbered then ":numbered:" else "")
      (String.intercalate "\n" ((page.pages.getD []).map (fun k =>
        sectionEntry (parentDir pf) (k.file.getD "") k.name)))) := by
  rw [pageToctree.eq_def, hfile]
  dsimp only
  rw [buildSections_ok pf _ hall]
  rfl

theorem claim_C8_witness :
    pageToctree (TocNode.mk (some "index") none none false
      (some [TocNode.mk (some "sub/ch1") (some "Chapter One") none false none,
             TocNode.mk (some "ch2") none none false none])) =
      Except.ok (toctreeTemplate ""
        (String.intercalate "\n"
          ([TocNode.mk (some "sub/ch1") (some "Chapter One") none false none,
            TocNode.mk (some "ch2") none none false none].map (fun k =>
            sectionEntry (parentDir "index") (k.file.getD "") k.name)))) :=
  claim_C8 (TocNode.mk (some "index") none none false
      (some [TocNode.mk (some "sub/ch1") (some "Chapter One") none false none,
             TocNode.mk (some "ch2") none none false none])) "index"
    rfl (by decide)

end JBToc
